import Mathlib

/-!
Verification of the Visualizae canvas editor's core algorithms, shallowly
embedded from the TypeScript source: the canvas interaction engine
(selection snapping, axis-locked selection drag, layer hit-testing,
wheel/pinch zoom), the layer undo/redo stacks, the generation
orchestrator's error path, the Studio scene validation and the movie
export pipeline. Exact arithmetic (ℚ, and ℝ where the code uses `exp`)
stands in for JavaScript doubles.
-/

namespace Visualizae

/-! ## Geometry: resolutions and rectangles (src/types.ts, part_001) -/

/-- An entry of `availableResolutions` (`Resolution` in src/types.ts);
only the fields the interaction engine reads. -/
structure Resolution where
  w : ℚ
  h : ℚ
  ratio : ℚ
deriving DecidableEq, Repr

/-- The selection rectangle `{x, y, w, h}` in world units. -/
structure Rect where
  x : ℚ
  y : ℚ
  w : ℚ
  h : ℚ
deriving DecidableEq, Repr

/-- A 2D point (client or world coordinates). -/
structure Pt where
  x : ℚ
  y : ℚ
deriving DecidableEq, Repr

/-! ## The closest-by-key fold shared by the snap loop and the aspect
`reduce`.  Both scan a list keeping the current best and replace it only
on a strictly smaller key, so the earliest minimizer wins ties. -/

/-- One comparison step: keep `prev` unless `curr` has a strictly
smaller key (mirrors `diff < minDiff` / the `reduce` callback). -/
def pickCloser {α : Type} (f : α → ℚ) (prev curr : α) : α :=
  if f curr < f prev then curr else prev

/-- Fold a list to the element of `init :: l` with the smallest key,
earliest first. -/
def argminFold {α : Type} (f : α → ℚ) (init : α) (l : List α) : α :=
  l.foldl (pickCloser f) init

theorem pickCloser_cases {α : Type} (f : α → ℚ) (prev curr : α) :
    pickCloser f prev curr = prev ∨ pickCloser f prev curr = curr := by
  unfold pickCloser
  split <;> simp

theorem pickCloser_le_left {α : Type} (f : α → ℚ) (prev curr : α) :
    f (pickCloser f prev curr) ≤ f prev := by
  unfold pickCloser
  split <;> [exact le_of_lt (by assumption); exact le_refl _]

theorem pickCloser_le_right {α : Type} (f : α → ℚ) (prev curr : α) :
    f (pickCloser f prev curr) ≤ f curr := by
  unfold pickCloser
  split <;> [exact le_refl _; exact le_of_not_lt (by assumption)]

theorem argminFold_mem {α : Type} (f : α → ℚ) (init : α) (l : List α) :
    argminFold f init l ∈ init :: l := by
  induction l generalizing init with
  | nil => simp [argminFold]
  | cons c cs ih =>
    rw [argminFold, List.foldl_cons, ← argminFold]
    have h := ih (pickCloser f init c)
    rcases List.mem_cons.mp h with h1 | h1
    · rcases pickCloser_cases f init c with hp | hp
      · rw [h1, hp]; exact List.mem_cons_self _ _
      · rw [h1, hp]; exact List.mem_cons_of_mem _ (List.mem_cons_self _ _)
    · exact List.mem_cons_of_mem _ (List.mem_cons_of_mem _ h1)

theorem argminFold_le {α : Type} (f : α → ℚ) (init : α) (l : List α) :
    ∀ x ∈ init :: l, f (argminFold f init l) ≤ f x := by
  induction l generalizing init with
  | nil => intro x hx; simp at hx; simp [argminFold, hx]
  | cons c cs ih =>
    intro x hx
    rw [argminFold, List.foldl_cons, ← argminFold]
    have hself : f (argminFold f (pickCloser f init c) cs) ≤ f (pickCloser f init c) :=
      ih (pickCloser f init c) _ (List.mem_cons_self _ _)
    rcases List.mem_cons.mp hx with h1 | h1
    · rw [h1]; exact le_trans hself (pickCloser_le_left f init c)
    rcases List.mem_cons.mp h1 with h2 | h2
    · rw [h2]; exact le_trans hself (pickCloser_le_right f init c)
    · exact ih (pickCloser f init c) x (List.mem_cons_of_mem _ h2)

/-- The fold's result is the *first* minimizer: everything before it in
`init :: l` has a strictly larger key (ties keep the earlier element). -/
theorem argminFold_first {α : Type} (f : α → ℚ) (init : α) (l : List α) :
    ∃ pre post, init :: l = pre ++ argminFold f init l :: post ∧
      ∀ x ∈ pre, f (argminFold f init l) < f x := by
  induction l generalizing init with
  | nil => exact ⟨[], [], rfl, by simp⟩
  | cons c cs ih =>
    rw [argminFold, List.foldl_cons, ← argminFold]
    by_cases h : f c < f init
    · have hpick : pickCloser f init c = c := by simp [pickCloser, h]
      rw [hpick]
      obtain ⟨pre, post, heq, hlt⟩ := ih c
      refine ⟨init :: pre, post, by rw [List.cons_append, ← heq], ?_⟩
      intro x hx
      rcases List.mem_cons.mp hx with h1 | h1
      · have hle : f (argminFold f c cs) ≤ f c :=
          argminFold_le f c cs c (List.mem_cons_self _ _)
        exact h1 ▸ lt_of_le_of_lt hle h
      · exact hlt x h1
    · have hpick : pickCloser f init c = init := by simp [pickCloser, h]
      rw [hpick]
      obtain ⟨pre, post, heq, hlt⟩ := ih init
      match pre, heq with
      | [], heq =>
        rw [List.nil_append] at heq
        obtain ⟨hhead, htail⟩ := List.cons_eq_cons.mp heq
        refine ⟨[], c :: cs, ?_, by simp⟩
        rw [List.nil_append, ← hhead]
      | p :: ps, heq =>
        rw [List.cons_append] at heq
        obtain ⟨hp, htail⟩ := List.cons_eq_cons.mp heq
        refine ⟨init :: c :: ps, post, by rw [List.cons_append, List.cons_append, ← htail], ?_⟩
        intro x hx
        have hinit : f (argminFold f init cs) < f init := by
          apply hlt
          simp [hp]
        rcases List.mem_cons.mp hx with h1 | h1
        · exact h1 ▸ hinit
        rcases List.mem_cons.mp h1 with h2 | h2
        · exact h2 ▸ lt_of_lt_of_le hinit (le_of_not_lt h)
        · exact hlt x (List.mem_cons_of_mem _ h2)

/-! ## getClosestAspectRatio (src/services/geminiService.ts, lines 113-127) -/

/-- An entry of the fixed `ratios` table in `getClosestAspectRatio`. -/
structure RatioEntry where
  key : String
  val : ℚ
deriving DecidableEq, Repr

/-- The fixed table: 1:1 = 1.0, 3:4 = 0.75, 4:3 = 1.33, 9:16 = 0.5625,
16:9 = 1.77 (decimal literals read exactly into ℚ). -/
def geminiRatios : List RatioEntry :=
  [⟨"1:1", 1⟩, ⟨"3:4", 3/4⟩, ⟨"4:3", 133/100⟩, ⟨"9:16", 9/16⟩, ⟨"16:9", 177/100⟩]

/-- `Array.prototype.reduce` without an initial value: the head seeds the
accumulator and the callback keeps the closer entry (strictly, so the
earlier wins ties). `none` for the empty list, on which `reduce` throws. -/
def reduceClosest (ratio : ℚ) : List RatioEntry → Option RatioEntry
  | [] => none
  | e :: es => some (argminFold (fun r => |r.val - ratio|) e es)

/-- `getClosestAspectRatio(ratio)` from geminiService.ts. -/
def getClosestAspectRatio (ratio : ℚ) : String :=
  ((reduceClosest ratio geminiRatios).map RatioEntry.key).getD ""

/-- C4: `getClosestAspectRatio` is deterministic (it is a function of its
argument) and returns, from the fixed set {1:1 = 1, 3:4 = 0.75,
4:3 = 1.33, 9:16 = 0.5625, 16:9 = 1.77}, the entry of minimum absolute
difference to the input, ties broken by encounter order (everything
before the chosen entry is strictly farther); in particular
`getClosestAspectRatio 1.0 = "1:1"`, `getClosestAspectRatio 1.78 = "16:9"`
and `getClosestAspectRatio 0.5 = "9:16"`. -/
theorem getClosestAspectRatio_minimizes :
    getClosestAspectRatio 1 = "1:1" ∧
    getClosestAspectRatio (178/100) = "16:9" ∧
    getClosestAspectRatio (1/2) = "9:16" ∧
    ∀ q : ℚ, ∃ e, reduceClosest q geminiRatios = some e ∧
      getClosestAspectRatio q = e.key ∧ e ∈ geminiRatios ∧
      (∀ r ∈ geminiRatios, |e.val - q| ≤ |r.val - q|) ∧
      ∃ pre post, geminiRatios = pre ++ e :: post ∧
        ∀ r ∈ pre, |e.val - q| < |r.val - q| := by
  refine ⟨?_, ?_, ?_, ?_⟩
  · norm_num [getClosestAspectRatio, reduceClosest, geminiRatios, argminFold,
      List.foldl, pickCloser, abs_of_nonneg, abs_of_nonpos]
  · norm_num [getClosestAspectRatio, reduceClosest, geminiRatios, argminFold,
      List.foldl, pickCloser, abs_of_nonneg, abs_of_nonpos]
  · norm_num [getClosestAspectRatio, reduceClosest, geminiRatios, argminFold,
      List.foldl, pickCloser, abs_of_nonneg, abs_of_nonpos]
  intro q
  refine ⟨argminFold (fun r => |r.val - q|) ⟨"1:1", 1⟩ (geminiRatios.tail), ?_, ?_, ?_, ?_, ?_⟩
  · rfl
  · rfl
  · exact argminFold_mem _ _ _
  · exact argminFold_le _ _ _
  · exact argminFold_first _ _ _

/-! ## Selection snapping (useCanvasInteraction.handleMove, select branch,
src/unnamed/part_001 lines 194-231) and release (handleEnd, lines 234-240) -/

/-- The fallback entry `{ w: 1024, h: 1024, ratio: 1 }`. -/
def defaultResolution : Resolution := ⟨1024, 1024, 1⟩

/-- `availableResolutions.length > 0 ? availableResolutions : [fallback]`. -/
def effectiveResolutions (rs : List Resolution) : List Resolution :=
  if rs.isEmpty then [defaultResolution] else rs

/-- `currentRatio = rawH === 0 ? 1 : rawW / rawH`. -/
def snapRatio (rawW rawH : ℚ) : ℚ := if rawH = 0 then 1 else rawW / rawH

/-- One iteration of the best-resolution loop; `none` models the initial
`minDiff = Number.MAX_VALUE`, which any first difference replaces. -/
def bestResStep (target : ℚ) (acc : Resolution × Option ℚ) (res : Resolution) :
    Resolution × Option ℚ :=
  match acc with
  | (_, none) => (res, some |res.ratio - target|)
  | (best, some m) =>
      if |res.ratio - target| < m then (res, some |res.ratio - target|) else (best, some m)

/-- `bestRes` after the loop: starts at `resolutions[0]` with
`minDiff = MAX_VALUE` and scans the whole list. The `[]` case is
unreachable because `effectiveResolutions` is never empty. -/
def bestResolution (target : ℚ) : List Resolution → Resolution
  | [] => defaultResolution
  | r :: rs => ((r :: rs).foldl (bestResStep target) (r, none)).1

theorem bestResStep_foldl_some (t : ℚ) (l : List Resolution) (b : Resolution) :
    l.foldl (bestResStep t) (b, some |b.ratio - t|) =
      (argminFold (fun x => |x.ratio - t|) b l,
        some |(argminFold (fun x => |x.ratio - t|) b l).ratio - t|) := by
  induction l generalizing b with
  | nil => simp [argminFold]
  | cons c cs ih =>
    rw [List.foldl_cons, argminFold, List.foldl_cons, ← argminFold]
    by_cases hc : |c.ratio - t| < |b.ratio - t|
    · have h1 : bestResStep t (b, some |b.ratio - t|) c = (c, some |c.ratio - t|) := by
        simp [bestResStep, hc]
      have h2 : pickCloser (fun x => |x.ratio - t|) b c = c := by
        simp [pickCloser, hc]
      rw [h1, h2, ih]
    · have h1 : bestResStep t (b, some |b.ratio - t|) c = (b, some |b.ratio - t|) := by
        simp [bestResStep, hc]
      have h2 : pickCloser (fun x => |x.ratio - t|) b c = b := by
        simp [pickCloser, hc]
      rw [h1, h2, ih]

theorem bestResolution_eq_argmin (t : ℚ) (r : Resolution) (rs : List Resolution) :
    bestResolution t (r :: rs) = argminFold (fun x => |x.ratio - t|) r rs := by
  show ((r :: rs).foldl (bestResStep t) (r, none)).1 = _
  rw [List.foldl_cons]
  have h1 : bestResStep t (r, none) r = (r, some |r.ratio - t|) := rfl
  rw [h1, bestResStep_foldl_some]

theorem effectiveResolutions_ne_nil (rs : List Resolution) :
    effectiveResolutions rs ≠ [] := by
  rcases rs with _ | ⟨a, as⟩ <;> simp [effectiveResolutions]

theorem mem_effectiveResolutions (rs : List Resolution) (r : Resolution)
    (h : r ∈ effectiveResolutions rs) : r ∈ rs ∨ r = defaultResolution := by
  unfold effectiveResolutions at h
  split at h
  · right; simpa using h
  · left; exact h

theorem bestResolution_mem (t : ℚ) (rs : List Resolution) (h : rs ≠ []) :
    bestResolution t rs ∈ rs := by
  match rs, h with
  | r :: rest, _ =>
    rw [bestResolution_eq_argmin]
    exact argminFold_mem _ _ _

theorem bestResolution_min (t : ℚ) (rs : List Resolution) (h : rs ≠ []) :
    ∀ x ∈ rs, |(bestResolution t rs).ratio - t| ≤ |x.ratio - t| := by
  match rs, h with
  | r :: rest, _ =>
    rw [bestResolution_eq_argmin]
    exact argminFold_le _ _ _

/-- The select-tool `handleMove` body: raw drag box from the world-space
anchor `start` to the current world point `cur`, ratio snap against the
resolution list, then anchor mirroring for leftward/upward drags. -/
def computeSelection (start cur : Pt) (availableResolutions : List Resolution) : Rect :=
  let rawW := |cur.x - start.x|
  let rawH := |cur.y - start.y|
  let resolutions := effectiveResolutions availableResolutions
  let currentRatio := snapRatio rawW rawH
  let bestRes := bestResolution currentRatio resolutions
  let newW := if bestRes.ratio < currentRatio then rawH * bestRes.ratio else rawW
  let newH := if bestRes.ratio < currentRatio then rawH else rawW / bestRes.ratio
  let finalX := if cur.x < start.x then start.x - newW else start.x
  let finalY := if cur.y < start.y then start.y - newH else start.y
  ⟨finalX, finalY, newW, newH⟩

theorem computeSelection_w (start cur : Pt) (rs : List Resolution) :
    (computeSelection start cur rs).w =
      if (bestResolution (snapRatio |cur.x - start.x| |cur.y - start.y|)
            (effectiveResolutions rs)).ratio <
          snapRatio |cur.x - start.x| |cur.y - start.y|
        then |cur.y - start.y| *
          (bestResolution (snapRatio |cur.x - start.x| |cur.y - start.y|)
            (effectiveResolutions rs)).ratio
        else |cur.x - start.x| := rfl

theorem computeSelection_h (start cur : Pt) (rs : List Resolution) :
    (computeSelection start cur rs).h =
      if (bestResolution (snapRatio |cur.x - start.x| |cur.y - start.y|)
            (effectiveResolutions rs)).ratio <
          snapRatio |cur.x - start.x| |cur.y - start.y|
        then |cur.y - start.y|
        else |cur.x - start.x| /
          (bestResolution (snapRatio |cur.x - start.x| |cur.y - start.y|)
            (effectiveResolutions rs)).ratio := rfl

/-- `handleEnd` for the select tool: a committed selection under
10×10 world units becomes `null`; anything else is kept unchanged. -/
def endSelection : Option Rect → Option Rect
  | none => none
  | some r => if r.w < 10 ∨ r.h < 10 then none else some r

/-- C2: on every select-tool move the selection snaps to the resolution
entry minimizing `|entry.ratio - rawW/rawH|`, preserving the larger raw
dimension (`rawRatio > matched.ratio` keeps `rawH`, otherwise keeps
`rawW`), so `w = h * matched.ratio` exactly; and on release a selection
with `w < 10` or `h < 10` becomes `null` while any other selection is
kept unchanged. -/
theorem select_drag_snaps (start cur : Pt) (rs : List Resolution)
    (rawW rawH : ℚ) (best : Resolution) (sel : Rect)
    (hW : rawW = |cur.x - start.x|) (hH : rawH = |cur.y - start.y|)
    (hne : cur.y ≠ start.y)
    (hbest : best = bestResolution (rawW / rawH) (effectiveResolutions rs))
    (hsel : sel = computeSelection start cur rs)
    (hpos : ∀ r ∈ effectiveResolutions rs, 0 < r.ratio) :
    best ∈ effectiveResolutions rs ∧
    (∀ r ∈ effectiveResolutions rs, |best.ratio - rawW / rawH| ≤ |r.ratio - rawW / rawH|) ∧
    (if best.ratio < rawW / rawH then sel.h = rawH ∧ sel.w = rawH * best.ratio
      else sel.w = rawW ∧ sel.h = rawW / best.ratio) ∧
    sel.w = sel.h * best.ratio ∧
    (sel.w < 10 ∨ sel.h < 10 → endSelection (some sel) = none) ∧
    (¬ (sel.w < 10 ∨ sel.h < 10) → endSelection (some sel) = some sel) := by
  have hne0 : (|cur.y - start.y| : ℚ) ≠ 0 := by
    simpa [abs_eq_zero, sub_eq_zero] using hne
  have hsnap : snapRatio (|cur.x - start.x|) (|cur.y - start.y|) =
      |cur.x - start.x| / |cur.y - start.y| := by
    simp [snapRatio, hne0]
  have hmem : best ∈ effectiveResolutions rs := by
    rw [hbest, hW, hH]
    exact bestResolution_mem _ _ (effectiveResolutions_ne_nil rs)
  have hposb : 0 < best.ratio := hpos best hmem
  have hw : sel.w = (if best.ratio < rawW / rawH then rawH * best.ratio else rawW) := by
    rw [hsel, computeSelection_w, hsnap, ← hW, ← hH, ← hbest]
  have hh : sel.h = (if best.ratio < rawW / rawH then rawH else rawW / best.ratio) := by
    rw [hsel, computeSelection_h, hsnap, ← hW, ← hH, ← hbest]
  refine ⟨hmem, ?_, ?_, ?_, ?_, ?_⟩
  · intro r hr
    rw [hbest, hW, hH]
    exact bestResolution_min _ _ (effectiveResolutions_ne_nil rs) r hr
  · by_cases hcase : best.ratio < rawW / rawH
    · rw [if_pos hcase, hh, hw, if_pos hcase, if_pos hcase]
      exact ⟨rfl, rfl⟩
    · rw [if_neg hcase, hh, hw, if_neg hcase, if_neg hcase]
      exact ⟨rfl, rfl⟩
  · rw [hw, hh]
    by_cases hcase : best.ratio < rawW / rawH
    · rw [if_pos hcase, if_pos hcase]
    · rw [if_neg hcase, if_neg hcase, div_mul_cancel₀ _ (ne_of_gt hposb)]
  · intro h
    simp [endSelection, h]
  · intro h
    simp only [endSelection, if_neg h]

/-- C2 witness: dragging a raw 300×150 box with a 1:1 and a 16:9 entry
available snaps to the 16:9 entry and keeps the raw width. -/
theorem select_drag_snaps_witness :
    (computeSelection ⟨0, 0⟩ ⟨300, 150⟩
        [⟨1024, 1024, 1⟩, ⟨1920, 1080, 177/100⟩]).w =
      (computeSelection ⟨0, 0⟩ ⟨300, 150⟩
        [⟨1024, 1024, 1⟩, ⟨1920, 1080, 177/100⟩]).h * (177/100 : ℚ) := by
  have h := select_drag_snaps ⟨0, 0⟩ ⟨300, 150⟩
    [⟨1024, 1024, 1⟩, ⟨1920, 1080, 177/100⟩] 300 150 ⟨1920, 1080, 177/100⟩
    (computeSelection ⟨0, 0⟩ ⟨300, 150⟩ [⟨1024, 1024, 1⟩, ⟨1920, 1080, 177/100⟩])
    (by norm_num) (by norm_num) (by norm_num)
    (by norm_num [bestResolution, bestResStep, effectiveResolutions,
        abs_of_nonneg, abs_of_nonpos])
    rfl
    (by
      intro r hr
      simp only [effectiveResolutions, List.isEmpty_cons, if_false, Bool.false_eq_true,
        List.mem_cons, List.mem_singleton, List.not_mem_nil, or_false] at hr
      rcases hr with h1 | h1 <;> rw [h1] <;> norm_num)
  exact h.2.2.2.1

/-- C10: the snap computation is total: a zero raw height makes the raw
ratio 1 instead of dividing by zero, an empty resolution list falls back
to the 1:1 1024×1024 entry, and (for strictly positive configured
ratios, the domain on which exact division agrees with the source's
floating division) the computed selection always has nonnegative width
and height. -/
theorem computeSelection_total (start cur : Pt) (rs : List Resolution)
    (hnn : ∀ r ∈ rs, 0 < r.ratio) :
    (∀ w : ℚ, snapRatio w 0 = 1) ∧
    effectiveResolutions [] = [defaultResolution] ∧
    defaultResolution = ⟨1024, 1024, 1⟩ ∧
    0 ≤ (computeSelection start cur rs).w ∧
    0 ≤ (computeSelection start cur rs).h := by
  have hnn' : 0 ≤ (bestResolution (snapRatio (|cur.x - start.x|) (|cur.y - start.y|))
      (effectiveResolutions rs)).ratio := by
    have hmem := bestResolution_mem
      (snapRatio (|cur.x - start.x|) (|cur.y - start.y|)) _
      (effectiveResolutions_ne_nil rs)
    rcases mem_effectiveResolutions rs _ hmem with h | h
    · exact le_of_lt (hnn _ h)
    · rw [h]; norm_num [defaultResolution]
  refine ⟨fun w => by simp [snapRatio], rfl, rfl, ?_, ?_⟩
  · rw [computeSelection_w]
    split
    · exact mul_nonneg (abs_nonneg _) hnn'
    · exact abs_nonneg _
  · rw [computeSelection_h]
    split
    · exact abs_nonneg _
    · exact div_nonneg (abs_nonneg _) hnn'

/-- C10 witness: with an empty resolution list and a zero-height drag the
computation still yields a nonnegative box. -/
theorem computeSelection_total_witness :
    0 ≤ (computeSelection ⟨0, 0⟩ ⟨50, 0⟩ []).w ∧
    0 ≤ (computeSelection ⟨0, 0⟩ ⟨50, 0⟩ []).h :=
  ⟨(computeSelection_total ⟨0, 0⟩ ⟨50, 0⟩ [] (by simp)).2.2.2.1,
    (computeSelection_total ⟨0, 0⟩ ⟨50, 0⟩ [] (by simp)).2.2.2.2⟩

/-! ## Layers and hit-testing (src/types.ts; useCanvasInteraction.handleStart,
src/unnamed/part_001 lines 121-144) -/

/-- A layer record, restricted to the fields the interaction and
undo/redo code reads.  List order defines z-order with index 0 topmost:
rendering maps the *reversed* list to the DOM, so index 0 paints last
(on top), and new generations are prepended. -/
structure Layer where
  id : String
  visible : Bool
  locked : Bool
  x : ℚ
  y : ℚ
  width : ℚ
  height : ℚ
deriving DecidableEq, Repr

/-- The hit predicate used by `handleStart` (move and eraser branches):
point inside the layer's bounds, layer visible and not locked. -/
def hitTest (p : Pt) (l : Layer) : Bool :=
  decide (l.x ≤ p.x) && decide (p.x ≤ l.x + l.width) &&
    decide (l.y ≤ p.y) && decide (p.y ≤ l.y + l.height) && l.visible && !l.locked

/-- `[...layersRef.current].reverse().find(...)`: `find` on the reversed
list returns the hit with the largest original index. -/
def clickedLayer (layers : List Layer) (p : Pt) : Option Layer :=
  layers.reverse.find? (hitTest p)

/-! ## Undo/redo stacks (useCanvasLayers, src/unnamed/part_003 lines 14-45)
and the eraser press (part_001 lines 134-144) -/

/-- The layer list together with the redo stack (`layers` doubles as the
undo stack: `handleUndo` pops its head). -/
structure LayersState where
  layers : List Layer
  redoStack : List Layer
deriving DecidableEq, Repr

/-- `handleUndo`: pop the topmost layer onto the redo stack (no-op on an
empty list). -/
def handleUndo (s : LayersState) : LayersState :=
  match s.layers with
  | [] => s
  | removed :: remaining => ⟨remaining, removed :: s.redoStack⟩

/-- `handleRedo`: pop the redo stack back onto the layer list (no-op on
an empty redo stack). -/
def handleRedo (s : LayersState) : LayersState :=
  match s.redoStack with
  | [] => s
  | restored :: remainingStack => ⟨restored :: s.layers, remainingStack⟩

/-- `handleDeleteLayer`: filter the id out and clear the redo stack. -/
def handleDeleteLayer (s : LayersState) (id : String) : LayersState :=
  ⟨s.layers.filter (fun l => l.id ≠ id), []⟩

/-- The eraser branch of `handleStart`: remove the clicked layer and
clear the redo stack; a miss changes nothing. -/
def eraserPress (s : LayersState) (p : Pt) : LayersState :=
  match clickedLayer s.layers p with
  | some cl => ⟨s.layers.filter (fun l => l.id ≠ cl.id), []⟩
  | none => s

/-- Two overlapping, visible, unlocked layers: `"A"` at index 0 (the
topmost, painted last) and `"B"` at index 1 (the bottommost). -/
def topLayerA : Layer := ⟨"A", true, false, 0, 0, 10, 10⟩

/-- See `topLayerA`: the bottommost layer of the two-layer example. -/
def bottomLayerB : Layer := ⟨"B", true, false, 0, 0, 10, 10⟩

/-- C3: the code scans `[...layers].reverse()` front-first, which tests
the *bottommost* layer (largest index) first even though index 0 is the
topmost layer; at a point covered by both layers the move/eraser pick is
the bottommost `"B"`, not the topmost `"A"`, and the eraser press deletes
`"B"` keeping `"A"`: the code contradicts the topmost-pick rule. -/
theorem hit_scan_picks_bottommost :
    clickedLayer [topLayerA, bottomLayerB] ⟨5, 5⟩ = some bottomLayerB ∧
    bottomLayerB ≠ topLayerA ∧
    (eraserPress ⟨[topLayerA, bottomLayerB], []⟩ ⟨5, 5⟩).layers = [topLayerA] := by
  have hA : hitTest ⟨5, 5⟩ topLayerA = true := by
    norm_num [hitTest, topLayerA]
  have hB : hitTest ⟨5, 5⟩ bottomLayerB = true := by
    norm_num [hitTest, bottomLayerB]
  have hclick : clickedLayer [topLayerA, bottomLayerB] ⟨5, 5⟩ = some bottomLayerB := by
    simp [clickedLayer, List.find?, hB]
  refine ⟨hclick, by simp [topLayerA, bottomLayerB], ?_⟩
  rw [eraserPress]
  rw [hclick]
  simp [topLayerA, bottomLayerB]

/-- C5: undo immediately followed by redo restores the exact prior state
(layer list with the same records in the same order, and the same redo
stack); and any destructive edit (delete, or an eraser removal) leaves an
empty redo stack, so a subsequent redo leaves the layer list unchanged. -/
theorem undo_redo_roundtrip (s : LayersState) (hne : s.layers ≠ []) :
    handleRedo (handleUndo s) = s ∧
    (∀ id, (handleDeleteLayer s id).redoStack = [] ∧
      handleRedo (handleDeleteLayer s id) = handleDeleteLayer s id) ∧
    (∀ p cl, clickedLayer s.layers p = some cl →
      (eraserPress s p).redoStack = [] ∧
      handleRedo (eraserPress s p) = eraserPress s p) := by
  refine ⟨?_, fun id => ⟨rfl, rfl⟩, ?_⟩
  · match s, hne with
    | ⟨l :: rest, redo⟩, _ => rfl
  · intro p cl h
    rw [eraserPress, h]
    exact ⟨rfl, rfl⟩

/-- C5 witness: the round trip at a concrete one-layer state. -/
theorem undo_redo_roundtrip_witness :
    handleRedo (handleUndo ⟨[topLayerA], []⟩) = (⟨[topLayerA], []⟩ : LayersState) :=
  (undo_redo_roundtrip ⟨[topLayerA], []⟩ (List.cons_ne_nil _ _)).1

/-! ## Axis-locked selection drag (useCanvasInteraction.handleMove,
src/unnamed/part_001 lines 160-182) -/

/-- The drag axis chosen once the deadzone is exceeded. -/
inductive Axis where
  | horizontal
  | vertical
deriving DecidableEq, Repr

/-- The refs backing a selection drag: the committed axis, the world
point where the drag started (`selectionDragStartRef`), the selection's
position at the press (`initialSelectionPosRef`) and the selection. -/
structure SelDragState where
  dragAxis : Option Axis
  dragStart : Pt
  initialPos : Pt
  selection : Rect
deriving DecidableEq, Repr

/-- One `handleMove` step of the selection-drag branch. `client` is the
pointer position relative to the canvas element (`clientX - rect.left`),
converted to world space via the viewport; note the threshold 5 is
compared against the *world-space* deltas `dx, dy`. -/
def selDragMove (st : SelDragState) (client offset : Pt) (zoom : ℚ) : SelDragState :=
  let dx := (client.x - offset.x) / zoom - st.dragStart.x
  let dy := (client.y - offset.y) / zoom - st.dragStart.y
  match st.dragAxis with
  | some Axis.horizontal =>
      { st with selection :=
          { st.selection with x := st.initialPos.x + dx, y := st.initialPos.y } }
  | some Axis.vertical =>
      { st with selection :=
          { st.selection with x := st.initialPos.x, y := st.initialPos.y + dy } }
  | none =>
      if 5 < |dx| ∨ 5 < |dy| then
        if |dy| < |dx| then
          { st with
            dragAxis := some Axis.horizontal
            selection :=
              { st.selection with x := st.initialPos.x + dx, y := st.initialPos.y } }
        else
          { st with
            dragAxis := some Axis.vertical
            selection :=
              { st.selection with x := st.initialPos.x, y := st.initialPos.y + dy } }
      else st

/-- A fresh selection drag: no axis yet, started at world `(0,0)`, with
the selection at `(0,0)` sized 100×100. -/
def selDragEx : SelDragState := ⟨none, ⟨0, 0⟩, ⟨0, 0⟩, ⟨0, 0, 100, 100⟩⟩

/-- C8 counterexample: at zoom 1/2, moving the pointer only 4 *screen*
pixels (≤ 5) from the press point already locks the axis and moves the
selection by 8 world units, because the deadzone compares the threshold 5
against world-space deltas, not screen pixels. -/
theorem selection_deadzone_is_world_units :
    |(4 : ℚ) - 0| ≤ 5 ∧
    (selDragMove selDragEx ⟨4, 0⟩ ⟨0, 0⟩ (1/2)).dragAxis = some Axis.horizontal ∧
    (selDragMove selDragEx ⟨4, 0⟩ ⟨0, 0⟩ (1/2)).selection.x = 8 := by
  have h : selDragMove selDragEx ⟨4, 0⟩ ⟨0, 0⟩ (1/2) =
      ⟨some Axis.horizontal, ⟨0, 0⟩, ⟨0, 0⟩, ⟨8, 0, 100, 100⟩⟩ := by
    rw [selDragMove]
    norm_num [selDragEx]
  rw [h]
  norm_num

/-- C8 (amended: the deadzone is 5 *world* units, i.e. `5 * zoom` screen
pixels, not 5 screen pixels): while no axis is locked, world deltas
within the deadzone leave the state untouched; the first move beyond it
locks the dominant axis (`|dx| > |dy|` gives horizontal, ties vertical);
and once an axis is locked it stays locked for every later move of the
gesture, which only translates the selection along that axis — its width,
height, and the cross-axis coordinate equal their press-time values. -/
theorem selection_drag_axis_lock (st : SelDragState) (client offset : Pt)
    (zoom dx dy : ℚ) (a : Axis) (moves : List (Pt × Pt × ℚ))
    (hdx : dx = (client.x - offset.x) / zoom - st.dragStart.x)
    (hdy : dy = (client.y - offset.y) / zoom - st.dragStart.y)
    (hx0 : st.selection.x = st.initialPos.x)
    (hy0 : st.selection.y = st.initialPos.y) :
    (st.dragAxis = none → |dx| ≤ 5 → |dy| ≤ 5 →
      selDragMove st client offset zoom = st) ∧
    (st.dragAxis = none → 5 < |dx| ∨ 5 < |dy| →
      (selDragMove st client offset zoom).dragAxis =
        some (if |dy| < |dx| then Axis.horizontal else Axis.vertical)) ∧
    (st.dragAxis = some a →
      (moves.foldl (fun s m => selDragMove s m.1 m.2.1 m.2.2) st).dragAxis = some a ∧
      (moves.foldl (fun s m => selDragMove s m.1 m.2.1 m.2.2) st).selection.w =
        st.selection.w ∧
      (moves.foldl (fun s m => selDragMove s m.1 m.2.1 m.2.2) st).selection.h =
        st.selection.h ∧
      (a = Axis.horizontal →
        (moves.foldl (fun s m => selDragMove s m.1 m.2.1 m.2.2) st).selection.y =
          st.initialPos.y) ∧
      (a = Axis.vertical →
        (moves.foldl (fun s m => selDragMove s m.1 m.2.1 m.2.2) st).selection.x =
          st.initialPos.x)) := by
  have hstep : ∀ (u : SelDragState) (c o : Pt) (z : ℚ), u.dragAxis = some a →
      (selDragMove u c o z).dragAxis = some a ∧
      (selDragMove u c o z).selection.w = u.selection.w ∧
      (selDragMove u c o z).selection.h = u.selection.h ∧
      (selDragMove u c o z).initialPos = u.initialPos ∧
      (selDragMove u c o z).dragStart = u.dragStart ∧
      (a = Axis.horizontal → (selDragMove u c o z).selection.y = u.initialPos.y) ∧
      (a = Axis.vertical → (selDragMove u c o z).selection.x = u.initialPos.x) := by
    intro u c o z hu
    cases a with
    | horizontal =>
        rw [selDragMove, hu]
        refine ⟨rfl, rfl, rfl, rfl, rfl, fun _ => rfl, fun hcontra => ?_⟩
        exact absurd hcontra (by decide)
    | vertical =>
        rw [selDragMove, hu]
        refine ⟨rfl, rfl, rfl, rfl, rfl, fun hcontra => ?_, fun _ => rfl⟩
        exact absurd hcontra (by decide)
  refine ⟨?_, ?_, ?_⟩
  · intro hnone hdxle hdyle
    rw [selDragMove, hnone, ← hdx, ← hdy]
    rw [if_neg (by push_neg; exact ⟨hdxle, hdyle⟩)]
  · intro hnone hover
    rw [selDragMove, hnone, ← hdx, ← hdy, if_pos hover]
    by_cases hdom : |dy| < |dx|
    · rw [if_pos hdom, if_pos hdom]
    · rw [if_neg hdom, if_neg hdom]
  · intro ha
    have hinv : ∀ (ms : List (Pt × Pt × ℚ)) (u : SelDragState),
        u.dragAxis = some a → u.initialPos = st.initialPos →
        u.selection.w = st.selection.w → u.selection.h = st.selection.h →
        (a = Axis.horizontal → u.selection.y = st.initialPos.y) →
        (a = Axis.vertical → u.selection.x = st.initialPos.x) →
        (ms.foldl (fun s m => selDragMove s m.1 m.2.1 m.2.2) u).dragAxis = some a ∧
        (ms.foldl (fun s m => selDragMove s m.1 m.2.1 m.2.2) u).selection.w =
          st.selection.w ∧
        (ms.foldl (fun s m => selDragMove s m.1 m.2.1 m.2.2) u).selection.h =
          st.selection.h ∧
        (a = Axis.horizontal →
          (ms.foldl (fun s m => selDragMove s m.1 m.2.1 m.2.2) u).selection.y =
            st.initialPos.y) ∧
        (a = Axis.vertical →
          (ms.foldl (fun s m => selDragMove s m.1 m.2.1 m.2.2) u).selection.x =
            st.initialPos.x) := by
      intro ms
      induction ms with
      | nil =>
          intro u h1 h2 h3 h4 h5 h6
          exact ⟨h1, h3, h4, h5, h6⟩
      | cons m rest ih =>
          intro u h1 h2 h3 h4 h5 h6
          obtain ⟨s1, s2, s3, s4, s5, s6, s7⟩ := hstep u m.1 m.2.1 m.2.2 h1
          rw [List.foldl_cons]
          exact ih _ s1 (s4.trans h2) (s2.trans h3) (s3.trans h4)
            (fun hh => by rw [s6 hh, h2]) (fun hv => by rw [s7 hv, h2])
    exact hinv moves st ha rfl rfl rfl (fun _ => hy0) (fun _ => hx0)

/-- C8 witness: a locked horizontal drag stays on its axis through a
further move — the selection's y coordinate remains the press value 0. -/
theorem selection_drag_axis_lock_witness :
    (([(⟨20, 0⟩, ⟨0, 0⟩, 1)] : List (Pt × Pt × ℚ)).foldl
        (fun s m => selDragMove s m.1 m.2.1 m.2.2)
        ⟨some Axis.horizontal, ⟨0, 0⟩, ⟨0, 0⟩, ⟨0, 0, 100, 100⟩⟩).selection.y = 0 :=
  ((selection_drag_axis_lock ⟨some Axis.horizontal, ⟨0, 0⟩, ⟨0, 0⟩, ⟨0, 0, 100, 100⟩⟩
      ⟨0, 0⟩ ⟨0, 0⟩ 1 0 0 Axis.horizontal [(⟨20, 0⟩, ⟨0, 0⟩, 1)]
      (by norm_num) (by norm_num) rfl rfl).2.2 rfl).2.2.2.1 rfl

/-! ## Wheel and pinch zoom (useCanvasInteraction.handleWheel and
handleTouchMove, src/unnamed/part_001 lines 309-352) -/

/-- The viewport: `zoom` and the canvas offset.  Screen coordinates here
are relative to the canvas rect (`clientX - rect.left` is folded into the
inputs, exactly as the handlers subtract it before use). -/
structure Viewport where
  zoom : ℚ
  offsetX : ℚ
  offsetY : ℚ
deriving DecidableEq, Repr

/-- `Math.min(Math.max(0.05, z), 5)`. -/
def clampZoom (z : ℚ) : ℚ := min (max (1/20) z) 5

/-- `screen = world * zoom + offset` (the rendering transform). -/
def worldToScreenX (v : Viewport) (wx : ℚ) : ℚ := wx * v.zoom + v.offsetX

/-- See `worldToScreenX`. -/
def worldToScreenY (v : Viewport) (wy : ℚ) : ℚ := wy * v.zoom + v.offsetY

/-- The inverse transform used by every handler:
`world = (screen - offset) / zoom`. -/
def screenToWorldX (v : Viewport) (sx : ℚ) : ℚ := (sx - v.offsetX) / v.zoom

/-- See `screenToWorldX`. -/
def screenToWorldY (v : Viewport) (sy : ℚ) : ℚ := (sy - v.offsetY) / v.zoom

/-- `handleWheel`: the wheel handler computes
`scale = Math.exp(-e.deltaY * 0.001)`, a strictly positive factor; the
step takes that factor as the input `scale` (exact arithmetic stands in
for doubles, so the transcendental is abstracted to its value).  Steps
with `|deltaY| < 0.001` return before reaching this computation. -/
def wheelStep (v : Viewport) (mouseX mouseY scale : ℚ) : Viewport :=
  let newZoom := clampZoom (v.zoom * scale)
  let worldX := (mouseX - v.offsetX) / v.zoom
  let worldY := (mouseY - v.offsetY) / v.zoom
  ⟨newZoom, mouseX - worldX * newZoom, mouseY - worldY * newZoom⟩

/-- One two-finger `handleTouchMove` step: previous/current touch
distances and midpoints.  The world point is read under the *previous*
midpoint but the new offset is anchored at the *current* midpoint.  The
branch only runs when the stored previous distance is truthy (nonzero). -/
def pinchStep (v : Viewport) (lastDist curDist : ℚ) (lastC curC : Pt) : Viewport :=
  let scale := curDist / lastDist
  let newZoom := clampZoom (v.zoom * scale)
  let worldX := (lastC.x - v.offsetX) / v.zoom
  let worldY := (lastC.y - v.offsetY) / v.zoom
  ⟨newZoom, curC.x - worldX * newZoom, curC.y - worldY * newZoom⟩

/-- C1 counterexample: a pinch step whose midpoint moves (both fingers
translate, distances equal so the zoom factor is 1) does *not* map the
world point that was under the previous midpoint back to the same screen
coordinate — it lands on the new midpoint (screen 10, not 0). -/
theorem pinch_moving_midpoint_shifts_anchor :
    worldToScreenX (pinchStep ⟨1, 0, 0⟩ 1 1 ⟨0, 0⟩ ⟨10, 0⟩)
      (screenToWorldX ⟨1, 0, 0⟩ 0) ≠ 0 := by
  norm_num [pinchStep, clampZoom, worldToScreenX, screenToWorldX]

theorem clampZoom_bounds (z : ℚ) : 1/20 ≤ clampZoom z ∧ clampZoom z ≤ 5 :=
  ⟨le_min (le_max_left _ _) (by norm_num), min_le_right _ _⟩

/-- C1 (amended: for pinch, the world point read under the *previous*
midpoint is anchored at the *current* midpoint — the same screen
coordinate exactly when the midpoint did not move): every wheel or pinch
step sets `zoom` to the old zoom times the gesture's scale factor clamped
to `[0.05, 5]`, however large the step; the wheel keeps the world point
under the cursor at the same screen coordinate; the pinch maps the world
point under the previous midpoint to the current midpoint. -/
theorem zoom_clamped_and_anchored (v : Viewport) (mouseX mouseY scale : ℚ)
    (lastDist curDist : ℚ) (lastC curC : Pt)
    (hz : 0 < v.zoom) (hs : 0 < scale) (hld : lastDist ≠ 0) :
    (wheelStep v mouseX mouseY scale).zoom = clampZoom (v.zoom * scale) ∧
    1/20 ≤ (wheelStep v mouseX mouseY scale).zoom ∧
    (wheelStep v mouseX mouseY scale).zoom ≤ 5 ∧
    worldToScreenX (wheelStep v mouseX mouseY scale) (screenToWorldX v mouseX) = mouseX ∧
    worldToScreenY (wheelStep v mouseX mouseY scale) (screenToWorldY v mouseY) = mouseY ∧
    (pinchStep v lastDist curDist lastC curC).zoom =
      clampZoom (v.zoom * (curDist / lastDist)) ∧
    1/20 ≤ (pinchStep v lastDist curDist lastC curC).zoom ∧
    (pinchStep v lastDist curDist lastC curC).zoom ≤ 5 ∧
    worldToScreenX (pinchStep v lastDist curDist lastC curC)
      (screenToWorldX v lastC.x) = curC.x ∧
    worldToScreenY (pinchStep v lastDist curDist lastC curC)
      (screenToWorldY v lastC.y) = curC.y := by
  refine ⟨rfl, (clampZoom_bounds _).1, (clampZoom_bounds _).2, ?_, ?_, rfl,
    (clampZoom_bounds _).1, (clampZoom_bounds _).2, ?_, ?_⟩ <;>
    · simp only [wheelStep, pinchStep, worldToScreenX, worldToScreenY,
        screenToWorldX, screenToWorldY]
      ring

/-- C1 witness: the amended statement at a concrete pinch/wheel step. -/
theorem zoom_clamped_and_anchored_witness :
    worldToScreenX (wheelStep ⟨1, 0, 0⟩ 3 4 2) (screenToWorldX ⟨1, 0, 0⟩ 3) = 3 :=
  (zoom_clamped_and_anchored ⟨1, 0, 0⟩ 3 4 2 1 2 ⟨5, 6⟩ ⟨7, 8⟩
    (by norm_num) (by norm_num) (by norm_num)).2.2.2.1

/-! ## Generation orchestrator error path
(useCanvasGeneration.triggerGeneration,
src/components/canvas/useCanvasGeneration.ts lines 88-218) -/

/-- A thrown error as the catch block inspects it: the `message` and the
optional Firebase `code`. -/
structure JsError where
  message : String
  code : Option String
deriving DecidableEq, Repr

/-- `msg.toLowerCase()`.  `Char.toLower` lowers ASCII letters; the
accented letters of the searched substring are already lowercase. -/
def jsToLower (s : String) : String := s.map Char.toLower

/-- `String.prototype.includes`. -/
def includesSubstr (s pat : String) : Bool := decide (pat.toList <:+: s.toList)

/-- The three user-facing alerts of the catch block. -/
inductive AlertKind where
  | insufficientCredits
  | safetyBlocked
  | genericError
deriving DecidableEq, Repr

/-- The credit-exhaustion test of the catch block. -/
def isCreditError (e : JsError) : Bool :=
  includesSubstr (jsToLower e.message) "créditos insuficientes" ||
    includesSubstr (jsToLower e.message) "insufficient" ||
    decide (e.code = some "functions/resource-exhausted")

/-- The catch block's classification into one alert. -/
def classifyError (e : JsError) : AlertKind :=
  if isCreditError e then AlertKind.insufficientCredits
  else if e.message.startsWith "SAFETY_FILTER:" then AlertKind.safetyBlocked
  else AlertKind.genericError

/-- The outcome of one awaited generation call inside the loop:
`success true` returned content (a layer is added), `success false`
returned nothing (no layer, loop continues), `failure` threw. -/
inductive GenCall where
  | success (produced : Bool)
  | failure (e : JsError)
deriving DecidableEq, Repr

/-- The layer a successful iteration `i` prepends: visible, unlocked,
positioned and sized exactly to the selection (ids from `Date.now() + i`
abstracted by `idGen`). -/
def mkGenLayer (idGen : ℕ → String) (i : ℕ) (sel : Rect) : Layer :=
  ⟨idGen i, true, false, sel.x, sel.y, sel.w, sel.h⟩

/-- The `for` loop of `triggerGeneration`: iteration `i` awaits its
call's outcome; a produced result is prepended to the layer list, a
thrown error aborts the remaining iterations. -/
def genLoop (idGen : ℕ → String) (sel : Rect) :
    List GenCall → ℕ → List Layer → List Layer × Option JsError
  | [], _, acc => (acc, none)
  | GenCall.success true :: cs, i, acc =>
      genLoop idGen sel cs (i + 1) (mkGenLayer idGen i sel :: acc)
  | GenCall.success false :: cs, i, acc => genLoop idGen sel cs (i + 1) acc
  | GenCall.failure e :: _, _, acc => (acc, some e)

/-- The layers the completed calls of a run's prefix prepend (latest
success at the head, mirroring the repeated cons). -/
def okLayers (idGen : ℕ → String) (sel : Rect) : List GenCall → ℕ → List Layer
  | [], _ => []
  | GenCall.success true :: cs, i =>
      okLayers idGen sel cs (i + 1) ++ [mkGenLayer idGen i sel]
  | GenCall.success false :: cs, i => okLayers idGen sel cs (i + 1)
  | GenCall.failure _ :: _, _ => []

/-- The component state `triggerGeneration` touches. -/
structure GenState where
  layers : List Layer
  redoStack : List Layer
  selection : Option Rect
  isGenerating : Bool
  generatingEffect : String
deriving DecidableEq, Repr

/-- `triggerGeneration`: returns silently without a selection; otherwise
runs the loop over the outcomes of its calls (one list entry per
iteration of the `loops` count), clears the redo stack only when no call
threw, classifies a thrown error into one alert, and the `finally` block
always resets the busy flag, the selection and the visual effect. -/
def triggerGeneration (st : GenState) (idGen : ℕ → String) (calls : List GenCall) :
    GenState × Option AlertKind :=
  match st.selection with
  | none => (st, none)
  | some sel =>
      let result := genLoop idGen sel calls 0 st.layers
      let newRedo :=
        match result.2 with
        | none => ([] : List Layer)
        | some _ => st.redoStack
      (⟨result.1, newRedo, none, false, ""⟩, result.2.map classifyError)

theorem genLoop_failure (idGen : ℕ → String) (sel : Rect) (e : JsError) :
    ∀ (pre post : List GenCall), (∀ e', GenCall.failure e' ∉ pre) →
      ∀ (i : ℕ) (acc : List Layer),
        genLoop idGen sel (pre ++ GenCall.failure e :: post) i acc =
          (okLayers idGen sel pre i ++ acc, some e) := by
  intro pre
  induction pre with
  | nil =>
      intro post _ i acc
      simp [genLoop, okLayers]
  | cons c cs ih =>
      intro post hpre i acc
      match c with
      | GenCall.success true =>
          calc genLoop idGen sel ((GenCall.success true :: cs) ++ GenCall.failure e :: post)
                i acc
              = genLoop idGen sel (cs ++ GenCall.failure e :: post) (i + 1)
                  (mkGenLayer idGen i sel :: acc) := rfl
            _ = (okLayers idGen sel cs (i + 1) ++ (mkGenLayer idGen i sel :: acc), some e) :=
                ih post (fun e' he' => hpre e' (List.mem_cons_of_mem _ he')) (i + 1) _
            _ = (okLayers idGen sel (GenCall.success true :: cs) i ++ acc, some e) := by
                show _ = ((okLayers idGen sel cs (i + 1) ++ [mkGenLayer idGen i sel]) ++ acc,
                  some e)
                rw [List.append_assoc, List.singleton_append]
      | GenCall.success false =>
          calc genLoop idGen sel ((GenCall.success false :: cs) ++ GenCall.failure e :: post)
                i acc
              = genLoop idGen sel (cs ++ GenCall.failure e :: post) (i + 1) acc := rfl
            _ = (okLayers idGen sel cs (i + 1) ++ acc, some e) :=
                ih post (fun e' he' => hpre e' (List.mem_cons_of_mem _ he')) (i + 1) _
            _ = (okLayers idGen sel (GenCall.success false :: cs) i ++ acc, some e) := rfl
      | GenCall.failure e' =>
          exact absurd (List.mem_cons_self _ _) (hpre e')

/-- C6: whatever error a call of `triggerGeneration` throws, the layer
list is never left half-updated: the final list is exactly the layers of
the completed calls before the failure prepended onto the old list (the
failed call adds none), the error is classified into its single alert —
the dedicated insufficient-credits message whenever the error is a
credit exhaustion — and the `finally` block clears the selection, resets
the busy flag to false and clears the visual effect, while nothing else
changes (the redo stack is left as it was, since only a fully successful
run clears it). -/
theorem generation_error_leaves_state_consistent (st : GenState) (sel : Rect)
    (idGen : ℕ → String) (pre post : List GenCall) (e : JsError)
    (hsel : st.selection = some sel)
    (hpre : ∀ e', GenCall.failure e' ∉ pre) :
    (triggerGeneration st idGen (pre ++ GenCall.failure e :: post)).2 =
      some (classifyError e) ∧
    (isCreditError e = true →
      (triggerGeneration st idGen (pre ++ GenCall.failure e :: post)).2 =
        some AlertKind.insufficientCredits) ∧
    (triggerGeneration st idGen (pre ++ GenCall.failure e :: post)).1.layers =
      okLayers idGen sel pre 0 ++ st.layers ∧
    (triggerGeneration st idGen (pre ++ GenCall.failure e :: post)).1.selection = none ∧
    (triggerGeneration st idGen (pre ++ GenCall.failure e :: post)).1.isGenerating = false ∧
    (triggerGeneration st idGen (pre ++ GenCall.failure e :: post)).1.generatingEffect = "" ∧
    (triggerGeneration st idGen (pre ++ GenCall.failure e :: post)).1.redoStack =
      st.redoStack := by
  have hrun := genLoop_failure idGen sel e pre post hpre 0 st.layers
  have htrig : triggerGeneration st idGen (pre ++ GenCall.failure e :: post) =
      (⟨okLayers idGen sel pre 0 ++ st.layers, st.redoStack, none, false, ""⟩,
        some (classifyError e)) := by
    unfold triggerGeneration
    rw [hsel]
    simp only [hrun]
    rfl
  rw [htrig]
  refine ⟨rfl, ?_, rfl, rfl, rfl, rfl, rfl⟩
  intro hcredit
  simp [classifyError, hcredit]

/-- C6 witness: a single call failing with the Firebase
resource-exhausted code on a state holding a selection. -/
theorem generation_error_witness :
    (triggerGeneration ⟨[], [], some ⟨0, 0, 100, 100⟩, false, ""⟩ (fun _ => "gen")
        [GenCall.failure ⟨"", some "functions/resource-exhausted"⟩]).2 =
      some AlertKind.insufficientCredits :=
  (generation_error_leaves_state_consistent
    ⟨[], [], some ⟨0, 0, 100, 100⟩, false, ""⟩ ⟨0, 0, 100, 100⟩ (fun _ => "gen")
    [] [] ⟨"", some "functions/resource-exhausted"⟩ rfl (by simp)).2.1
    (by simp [isCreditError])

/-! ## Studio scene validation and dispatch (SceneRow.handleGenerate,
src/unnamed/part_006 lines 21-107) -/

/-- A Studio shot (`Shot` in src/types.ts): prompt and duration, the
duration kept as the select's string. -/
structure Shot where
  prompt : String
  duration : String
deriving DecidableEq, Repr

/-- A Studio scene (`Scene` in src/types.ts); the generation flags the
claims do not touch are omitted. -/
structure Scene where
  id : String
  startFrame : Option String
  endFrame : Option String
  shots : List Shot
  videos : List String
  selectedVideoIndex : ℤ
  variationCount : ℕ
deriving DecidableEq, Repr

/-- `String.prototype.trim` (strip whitespace from both ends). -/
def jsTrim (s : String) : String :=
  ⟨((s.toList.dropWhile Char.isWhitespace).reverse.dropWhile Char.isWhitespace).reverse⟩

/-- `s.prompt.trim().length > 0`: the filter keeping non-empty shots. -/
def isValidShot (sh : Shot) : Bool := decide (jsTrim sh.prompt ≠ "")

/-- `s || dflt` on strings: the empty string is the only falsy one. -/
def jsOr (s dflt : String) : String := if s = "" then dflt else s

/-- `parseInt` on the app's duration strings: the value of the leading
digits, `none` for `NaN` (JS sign/whitespace handling elided — the
duration select only produces plain digit strings). -/
def jsParseInt (s : String) : Option ℕ :=
  let ds := s.toList.takeWhile Char.isDigit
  if ds.isEmpty then none
  else some (ds.foldl (fun a c => a * 10 + (c.toNat - 48)) 0)

/-- `parseInt(s.duration || '5')`. -/
def shotDuration (sh : Shot) : Option ℕ := jsParseInt (jsOr sh.duration "5")

/-- `validShots.reduce((sum, s) => sum + parseInt(s.duration || '5'), 0)`;
`none` models a NaN-poisoned sum. -/
def totalDuration (shots : List Shot) : Option ℕ :=
  shots.foldl
    (fun acc sh =>
      match acc, shotDuration sh with
      | some t, some d => some (t + d)
      | _, _ => none)
    (some 0)

/-- `totalDuration > 15` as JS evaluates it: false when the sum is NaN. -/
def durationOver15 (shots : List Shot) : Bool :=
  match totalDuration shots with
  | some t => decide (15 < t)
  | none => false

/-- One endpoint call of the variation loop. -/
inductive StudioCall where
  | singleClip (prompt duration : String)
  | multiShot (shots : List (String × String))
deriving DecidableEq, Repr

/-- What `handleGenerate` does: rejected by validation with an alert
before any network call, or dispatched with one endpoint call per
variation (a thrown call would only truncate later iterations, never
change a call's endpoint). -/
inductive GenerateOutcome where
  | rejected (msg : String)
  | dispatched (calls : List StudioCall)
deriving DecidableEq, Repr

/-- The shot-count/duration checks and the variation loop of
`SceneRow.handleGenerate`, after the start frame is known present,
acting on the already-filtered valid shots: a single valid shot goes to
`generateVideo`, several to `generateVideoMultiShot`, once per
variation. -/
def validateAndDispatch (validShots : List Shot) (variationCount : ℕ) : GenerateOutcome :=
  match validShots with
  | [] => GenerateOutcome.rejected "Escreva pelo menos um prompt."
  | v :: vs =>
      if 2 ≤ (v :: vs).length ∧ 6 < (v :: vs).length then
        GenerateOutcome.rejected "Multi-shot suporta no máximo 6 shots."
      else if 2 ≤ (v :: vs).length ∧ durationOver15 (v :: vs) = true then
        GenerateOutcome.rejected "Duração total excede o máximo de 15s para multi-shot."
      else
        GenerateOutcome.dispatched ((List.range variationCount).map fun _ =>
          if (v :: vs).length = 1 then
            StudioCall.singleClip (jsOr v.prompt "Smooth cinematic camera movement")
              (jsOr v.duration "5")
          else
            StudioCall.multiShot ((v :: vs).map fun s =>
              (jsOr s.prompt "Smooth cinematic camera movement", jsOr s.duration "5")))

/-- `SceneRow.handleGenerate`: the start frame is required before any
further validation or call. -/
def handleGenerate (scene : Scene) : GenerateOutcome :=
  match scene.startFrame with
  | none => GenerateOutcome.rejected "Frame inicial obrigatório."
  | some _ => validateAndDispatch (scene.shots.filter isValidShot) scene.variationCount

/-- C7 counterexample: a scene with a start frame and two valid shots of
duration 1 s each — total 2 s, outside `[3,15]` — is *not* rejected: the
validation only checks the 15 s upper bound, and the multi-shot endpoint
is called. -/
theorem studio_lower_duration_bound_not_checked :
    totalDuration ([⟨"a", "1"⟩, ⟨"b", "1"⟩] : List Shot) = some 2 ∧
    handleGenerate ⟨"1", some "frame", none, [⟨"a", "1"⟩, ⟨"b", "1"⟩], [], -1, 1⟩ =
      GenerateOutcome.dispatched [StudioCall.multiShot [("a", "1"), ("b", "1")]] := by
  constructor
  · decide
  · decide

theorem validateAndDispatch_props (l : List Shot) (n : ℕ) :
    (l = [] →
      validateAndDispatch l n = GenerateOutcome.rejected "Escreva pelo menos um prompt.") ∧
    (∀ msg, validateAndDispatch l n = GenerateOutcome.rejected msg →
      l = [] ∨ 6 < l.length ∨ (2 ≤ l.length ∧ durationOver15 l = true)) ∧
    (∀ calls, validateAndDispatch l n = GenerateOutcome.dispatched calls →
      l ≠ [] ∧ l.length ≤ 6 ∧
      (2 ≤ l.length → durationOver15 l = false) ∧
      calls.length = n ∧
      (l.length = 1 → ∀ c ∈ calls, ∀ ss, c ≠ StudioCall.multiShot ss) ∧
      (2 ≤ l.length → ∀ c ∈ calls, c = StudioCall.multiShot
        (l.map fun s =>
          (jsOr s.prompt "Smooth cinematic camera movement", jsOr s.duration "5")))) := by
  match l with
  | [] =>
      exact ⟨fun _ => rfl, fun msg _ => Or.inl rfl,
        fun calls h => absurd h (by simp [validateAndDispatch])⟩
  | v :: vs =>
      refine ⟨fun h => absurd h (by simp), ?_, ?_⟩
      · intro msg hmsg
        rw [validateAndDispatch] at hmsg
        split at hmsg
        · rename_i h6
          exact Or.inr (Or.inl h6.2)
        · split at hmsg
          · rename_i hdur
            exact Or.inr (Or.inr hdur)
          · exact absurd hmsg (by simp)
      · intro calls hcalls
        rw [validateAndDispatch] at hcalls
        split at hcalls
        · exact absurd hcalls (by simp)
        · split at hcalls
          · exact absurd hcalls (by simp)
          · rename_i h6 hdur
            have hcalls' : calls = (List.range n).map fun _ =>
                if (v :: vs).length = 1 then
                  StudioCall.singleClip (jsOr v.prompt "Smooth cinematic camera movement")
                    (jsOr v.duration "5")
                else
                  StudioCall.multiShot ((v :: vs).map fun s =>
                    (jsOr s.prompt "Smooth cinematic camera movement",
                      jsOr s.duration "5")) := by
              injection hcalls with h
              exact h.symm
            refine ⟨by simp, ?_, ?_, ?_, ?_, ?_⟩
            · by_contra hlen
              push_neg at hlen
              exact h6 ⟨by omega, hlen⟩
            · intro h2
              cases hov : durationOver15 (v :: vs)
              · rfl
              · exact absurd ⟨h2, hov⟩ hdur
            · rw [hcalls', List.length_map, List.length_range]
            · intro hlen1 c hc ss
              rw [hcalls'] at hc
              obtain ⟨m, _, hm⟩ := List.mem_map.mp hc
              rw [if_pos hlen1] at hm
              rw [← hm]
              simp
            · intro h2 c hc
              rw [hcalls'] at hc
              obtain ⟨m, _, hm⟩ := List.mem_map.mp hc
              rw [if_neg (by omega)] at hm
              exact hm.symm

/-- C7 (amended: of the `[3,15]` budget only the upper bound 15 is
checked by the code — the lower bound cannot be violated through the UI,
whose duration options are 3–10 s, but it is not validated): network
calls happen only after validation passes — a start frame and at least
one non-empty shot prompt are required, and with ≥ 2 valid shots at most
6 are allowed and the summed duration must not exceed 15 s; every
rejection is one of exactly these four; a scene with one valid shot
never produces a multi-shot call, and one with ≥ 2 valid shots calls
only the multi-shot endpoint, once per variation. -/
theorem studio_scene_validation (scene : Scene) :
    (scene.startFrame = none →
      handleGenerate scene = GenerateOutcome.rejected "Frame inicial obrigatório.") ∧
    (scene.startFrame ≠ none → scene.shots.filter isValidShot = [] →
      handleGenerate scene = GenerateOutcome.rejected "Escreva pelo menos um prompt.") ∧
    (∀ msg, handleGenerate scene = GenerateOutcome.rejected msg →
      scene.startFrame = none ∨ scene.shots.filter isValidShot = [] ∨
        6 < (scene.shots.filter isValidShot).length ∨
        (2 ≤ (scene.shots.filter isValidShot).length ∧
          durationOver15 (scene.shots.filter isValidShot) = true)) ∧
    (∀ calls, handleGenerate scene = GenerateOutcome.dispatched calls →
      scene.startFrame ≠ none ∧
      scene.shots.filter isValidShot ≠ [] ∧
      (scene.shots.filter isValidShot).length ≤ 6 ∧
      (2 ≤ (scene.shots.filter isValidShot).length →
        durationOver15 (scene.shots.filter isValidShot) = false) ∧
      calls.length = scene.variationCount ∧
      ((scene.shots.filter isValidShot).length = 1 →
        ∀ c ∈ calls, ∀ ss, c ≠ StudioCall.multiShot ss) ∧
      (2 ≤ (scene.shots.filter isValidShot).length →
        ∀ c ∈ calls, c = StudioCall.multiShot
          ((scene.shots.filter isValidShot).map fun s =>
            (jsOr s.prompt "Smooth cinematic camera movement", jsOr s.duration "5")))) := by
  match hsf : scene.startFrame with
  | none =>
      refine ⟨fun _ => by rw [handleGenerate, hsf], fun hne => absurd rfl hne, ?_, ?_⟩
      · intro msg _
        exact Or.inl rfl
      · intro calls hcalls
        rw [handleGenerate, hsf] at hcalls
        exact absurd hcalls (by simp)
  | some f =>
      have hgen : handleGenerate scene =
          validateAndDispatch (scene.shots.filter isValidShot) scene.variationCount := by
        rw [handleGenerate, hsf]
      obtain ⟨hv1, hv2, hv3⟩ :=
        validateAndDispatch_props (scene.shots.filter isValidShot) scene.variationCount
      refine ⟨fun h => absurd h (by simp), ?_, ?_, ?_⟩
      · intro _ hfil
        rw [hgen]
        exact hv1 hfil
      · intro msg hmsg
        rw [hgen] at hmsg
        rcases hv2 msg hmsg with h | h | h
        · exact Or.inr (Or.inl h)
        · exact Or.inr (Or.inr (Or.inl h))
        · exact Or.inr (Or.inr (Or.inr h))
      · intro calls hcalls
        rw [hgen] at hcalls
        obtain ⟨g1, g2, g3, g4, g5, g6⟩ := hv3 calls hcalls
        exact ⟨by simp, g1, g2, g3, g4, g5, g6⟩

/-! ## Movie export pipeline (useStudioExport.handleExportFullMovie,
src/unnamed/part_005 lines 12-190) -/

/-- The observable events of the export run, in order: the no-scenes
alert, the recorder start, a scene's chosen video starting playback, its
`ended` event, the recorder stop after the flush delay, and the `onstop`
handler packaging the download. -/
inductive ExportEvent where
  | alerted
  | recStart
  | played (url : Option String)
  | ended
  | recStop
  | fileSaved
deriving DecidableEq, Repr

/-- `scene.videos[scene.selectedVideoIndex]` (`none` for an
out-of-range index, where JS reads `undefined`). -/
def chosenVideo (s : Scene) : Option String := s.videos.get? s.selectedVideoIndex.toNat

/-- A scene the export keeps:
`s.videos.length > 0 && s.selectedVideoIndex !== -1`. -/
def qualifies (s : Scene) : Bool :=
  decide (0 < s.videos.length) && decide (s.selectedVideoIndex ≠ -1)

/-- `playNext`: scene `i`'s chosen video is loaded into the single
reusable element and played; only its `ended` handler advances to scene
`i + 1`; past the last scene the recorder stops and `onstop` saves the
file. -/
def playNextTrace (valid : List Scene) (i : ℕ) : List ExportEvent :=
  if h : i < valid.length then
    ExportEvent.played (chosenVideo (valid.get ⟨i, h⟩)) :: ExportEvent.ended ::
      playNextTrace valid (i + 1)
  else [ExportEvent.recStop, ExportEvent.fileSaved]
termination_by valid.length - i

/-- `handleExportFullMovie` as its event trace: with no qualifying scene
it alerts and returns before the recorder exists; otherwise the recorder
starts and `playNext(0)` walks the qualifying scenes. -/
def handleExportFullMovie (scenes : List Scene) : List ExportEvent :=
  let valid := scenes.filter qualifies
  if valid.length = 0 then [ExportEvent.alerted]
  else ExportEvent.recStart :: playNextTrace valid 0

theorem playNextTrace_eq (valid : List Scene) :
    ∀ i, playNextTrace valid i =
      ((valid.drop i).bind fun s =>
        [ExportEvent.played (chosenVideo s), ExportEvent.ended]) ++
        [ExportEvent.recStop, ExportEvent.fileSaved] := by
  have key : ∀ (n i : ℕ), valid.length - i ≤ n → playNextTrace valid i =
      ((valid.drop i).bind fun s =>
        [ExportEvent.played (chosenVideo s), ExportEvent.ended]) ++
        [ExportEvent.recStop, ExportEvent.fileSaved] := by
    intro n
    induction n with
    | zero =>
        intro i hle
        rw [playNextTrace, dif_neg (by omega), List.drop_eq_nil_of_le (by omega)]
        simp
    | succ n ihn =>
        intro i hle
        by_cases h : i < valid.length
        · rw [playNextTrace, dif_pos h, ihn (i + 1) (by omega)]
          have hdrop : valid.drop i = valid[i] :: valid.drop (i + 1) :=
            List.drop_eq_getElem_cons h
          rw [hdrop]
          rfl
        · rw [playNextTrace, dif_neg h, List.drop_eq_nil_of_le (by omega)]
          simp
  exact fun i => key (valid.length - i) i (le_refl _)

/-- C9: the export processes exactly the qualifying scenes (at least one
video and a selected index), strictly serialized in scene-list order —
the trace is the per-scene blocks `[played, ended]` concatenated in
order, so qualifying scene `i + 1` starts playing only after scene `i`'s
`ended` event — and with no qualifying scene it only shows the alert:
the recorder never starts and no file is produced. -/
theorem export_serializes_scenes (scenes : List Scene) :
    (scenes.filter qualifies = [] →
      handleExportFullMovie scenes = [ExportEvent.alerted] ∧
      ExportEvent.recStart ∉ handleExportFullMovie scenes ∧
      ExportEvent.fileSaved ∉ handleExportFullMovie scenes) ∧
    (scenes.filter qualifies ≠ [] →
      handleExportFullMovie scenes =
        ExportEvent.recStart ::
          (((scenes.filter qualifies).bind fun s =>
            [ExportEvent.played (chosenVideo s), ExportEvent.ended]) ++
            [ExportEvent.recStop, ExportEvent.fileSaved])) := by
  constructor
  · intro hnil
    have hexp : handleExportFullMovie scenes = [ExportEvent.alerted] := by
      unfold handleExportFullMovie
      rw [hnil]
      rfl
    rw [hexp]
    refine ⟨rfl, by simp, by simp⟩
  · intro hne
    unfold handleExportFullMovie
    rw [if_neg (by simpa [List.length_eq_zero] using hne)]
    rw [playNextTrace_eq]
    rw [List.drop_zero]

/-- C9 witness: one qualifying and one non-qualifying scene produce the
serialized single-scene trace. -/
theorem export_serializes_scenes_witness :
    handleExportFullMovie
        [⟨"1", none, none, [], ["v1"], 0, 1⟩, ⟨"2", none, none, [], [], -1, 1⟩] =
      [ExportEvent.recStart, ExportEvent.played (some "v1"), ExportEvent.ended,
        ExportEvent.recStop, ExportEvent.fileSaved] := by
  have h := (export_serializes_scenes
    [⟨"1", none, none, [], ["v1"], 0, 1⟩, ⟨"2", none, none, [], [], -1, 1⟩]).2
    (by decide)
  rw [h]
  decide

end Visualizae
